import Mathlib

/-!
Verification of `scripts/inference.py` (LatentSync command-line inference driver).

The script is shallowly embedded: the segment-count arithmetic is modelled over `ℚ`
(the probed duration is a number, and all arithmetic on it in the script is exact on
rationals), the command line is a record of optional flag values, the effectful parts
(ffmpeg cuts, pipeline invocations, concatenation) are modelled by records describing
each external call, and the control flow of `main` is additionally modelled by an
explicit event trace.
-/

namespace LatentSync

/-! ### Segment-count arithmetic (`main`, lines 113-122) -/

/-- The fixed segment length in seconds; `segment_duration = 5` in `main`. -/
def segment_duration : ℚ := 5

/-- Number of segments computed by `main`:
`total_segments = 1` if `video_duration <= segment_duration`, else
`int(video_duration // segment_duration)` plus one more when
`video_duration % segment_duration != 0`.  Python's float `//` is the floor of the
quotient and `d % 5` is `d - 5 * (d // 5)`, which the embedding writes out explicitly. -/
def total_segments (video_duration : ℚ) : ℤ :=
  if video_duration ≤ segment_duration then 1
  else if video_duration - segment_duration * (⌊video_duration / segment_duration⌋ : ℚ) ≠ 0 then
    ⌊video_duration / segment_duration⌋ + 1
  else
    ⌊video_duration / segment_duration⌋

/-- `total_segments` as a natural number, as used by `range(total_segments)`. -/
def nSeg (video_duration : ℚ) : ℕ := (total_segments video_duration).toNat

/-! ### Command line (`__main__`, lines 240-249) -/

/-- The parsed argument record produced by `argparse` for this script. -/
structure Args where
  unet_config_path : String
  inference_ckpt_path : String
  video_path : String
  audio_path : String
  video_out_path : String
  inference_steps : ℤ
  guidance_scale : ℚ
  seed : ℤ
  deriving DecidableEq, Repr

/-- An invocation of the script: for each declared flag, the value supplied on the
command line, or `none` when the flag is absent. -/
structure CmdLine where
  unet_config_path : Option String
  inference_ckpt_path : Option String
  video_path : Option String
  audio_path : Option String
  video_out_path : Option String
  inference_steps : Option ℤ
  guidance_scale : Option ℚ
  seed : Option ℤ
  deriving DecidableEq, Repr

/-- Model of `parser.parse_args()`: the four flags declared with `required=True`
must be present, every other flag falls back to its declared default
(`"configs/unet.yaml"`, `20`, `1.0`, `1247`). -/
def parse_args (c : CmdLine) : Option Args :=
  match c.inference_ckpt_path, c.video_path, c.audio_path, c.video_out_path with
  | some ckpt, some vp, some ap, some vop =>
      some
        { unet_config_path := c.unet_config_path.getD "configs/unet.yaml"
          inference_ckpt_path := ckpt
          video_path := vp
          audio_path := ap
          video_out_path := vop
          inference_steps := c.inference_steps.getD 20
          guidance_scale := c.guidance_scale.getD 1
          seed := c.seed.getD 1247 }
  | _, _, _, _ => none

/-! ### Configuration and data model -/

/-- The parts of the OmegaConf configuration tree read by `main`. -/
structure Config where
  cross_attention_dim : ℤ
  num_frames : ℤ
  resolution : ℤ
  deriving DecidableEq, Repr

/-- Torch weight dtype chosen by `main` (line 105). -/
inductive DType where
  | float16
  | float32
  deriving DecidableEq, Repr

/-- One ffmpeg cut performed by `cut_video`/`cut_audio`: the arguments received from
`main` (`start_time`, `end_time`) and the options actually handed to ffmpeg
(`ss = start_time`, `t = end_time - start_time`). -/
structure CutCall where
  input_path : String
  output_path : String
  start_time : ℚ
  end_time : ℚ
  ss : ℚ
  t : ℚ
  deriving DecidableEq, Repr

/-- Models `cut_video` (lines 30-47): re-encodes `input_path` from `start_time` for
`end_time - start_time` seconds into `output_path`. -/
def cut_video (input_path output_path : String) (start_time end_time : ℚ) : CutCall :=
  { input_path := input_path
    output_path := output_path
    start_time := start_time
    end_time := end_time
    ss := start_time
    t := end_time - start_time }

/-- Models `cut_audio` (lines 49-63): extracts mp3 audio of `input_path` from
`start_time` for `end_time - start_time` seconds into `output_path`. -/
def cut_audio (input_path output_path : String) (start_time end_time : ℚ) : CutCall :=
  { input_path := input_path
    output_path := output_path
    start_time := start_time
    end_time := end_time
    ss := start_time
    t := end_time - start_time }

/-- Whisper checkpoint selection (lines 172-177): `small.pt` for
`cross_attention_dim = 768`, `tiny.pt` for `384`, otherwise the
`NotImplementedError` is raised. -/
def whisper_model_path (cross_attention_dim : ℤ) : Except String String :=
  if cross_attention_dim = 768 then Except.ok "checkpoints/whisper/small.pt"
  else if cross_attention_dim = 384 then Except.ok "checkpoints/whisper/tiny.pt"
  else Except.error "cross_attention_dim must be 768 or 384"

/-- The `Audio2Feature` audio encoder as constructed in `main` (line 179). -/
structure AudioEncoder where
  model_path : String
  device : String
  num_frames : ℤ
  deriving DecidableEq, Repr

/-- The VAE as configured in `main` (lines 181-183). -/
structure VaeModel where
  torch_dtype : DType
  scaling_factor : ℚ
  shift_factor : ℚ
  deriving DecidableEq, Repr

/-- The UNet after `unet.to(dtype=dtype)` (lines 185-191). -/
structure UnetModel where
  dtype : DType
  device : String
  deriving DecidableEq, Repr

/-- The `LipsyncPipeline` object moved to `"cuda"` (lines 197-202). -/
structure Pipeline where
  vae : VaeModel
  audio_encoder : AudioEncoder
  unet : UnetModel
  device : String
  deriving DecidableEq, Repr

/-- The seeding action taken by `main` (lines 204-207). -/
inductive SeedCall where
  | set (s : ℤ)
  | torch
  deriving DecidableEq, Repr

/-- One invocation of the lipsync pipeline with the keyword arguments of
lines 218-229. -/
structure PipelineCall where
  video_path : String
  audio_path : String
  video_out_path : String
  video_mask_path : String
  num_frames : ℤ
  num_inference_steps : ℤ
  guidance_scale : ℚ
  weight_dtype : DType
  width : ℤ
  height : ℤ
  deriving DecidableEq, Repr

/-- The `filter_complex` string built by `concatenate_videos` (lines 66-67). -/
def concat_filter (k : ℕ) : String :=
  String.join ((List.range k).map fun i =>
    "[" ++ toString i ++ ":v:0][" ++ toString i ++ ":a:0]")
    ++ "concat=n=" ++ toString k ++ ":v=1:a=1[v][a]"

/-- Models `concatenate_videos` (lines 65-100): the full `ffmpeg` command line it
passes to `subprocess.run`, with one `-i` input per video in order and the output
path as the final argument. -/
def concatenate_videos (video_paths : List String) (output_path : String) : List String :=
  ["ffmpeg", "-y"]
    ++ video_paths.flatMap (fun p => ["-i", p])
    ++ ["-filter_complex", concat_filter video_paths.length,
        "-hide_banner", "-loglevel", "error", "-map", "[v]", "-map", "[a]",
        "-c:v", "libx264", "-preset", "ultrafast", "-crf", "28", "-r", "30", "-y",
        output_path]

/-! ### The result of a successful `main` run -/

/-- Everything `main` computes and every external call it issues, in order inside
each list. -/
structure MainResult where
  dtype : DType
  total_segments : ℤ
  cut_videos : List CutCall
  cut_audios : List CutCall
  whisper_model_path : String
  pipeline : Pipeline
  seed_call : SeedCall
  pipeline_calls : List PipelineCall
  outputs : List String
  concat_cmd : List String
  deriving Repr

/-- The effect of `main` on the happy path, given the probed `video_duration`, the
CUDA availability and major compute capability, the loaded config and the parsed
arguments; `whisper_path` is the checkpoint already selected by
`whisper_model_path`.  Mirrors `main` (lines 102-235) section by section. -/
def mainResult (cuda_available : Bool) (capability_major : ℤ) (video_duration : ℚ)
    (config : Config) (args : Args) (whisper_path : String) : MainResult :=
  let is_fp16_supported := cuda_available && decide (7 < capability_major)
  let dtype := if is_fp16_supported then DType.float16 else DType.float32
  let ts := total_segments video_duration
  let n := ts.toNat
  let cut_videos := (List.range n).map fun (i : ℕ) =>
    cut_video args.video_path ("assets/" ++ toString (i + 1) ++ ".mp4")
      ((i : ℚ) * segment_duration)
      (min (((i : ℚ) + 1) * segment_duration) video_duration)
  let cut_audios := (List.range n).map fun (i : ℕ) =>
    cut_audio args.audio_path ("assets/" ++ toString (i + 1) ++ ".mp3")
      ((i : ℚ) * segment_duration)
      (min (((i : ℚ) + 1) * segment_duration) video_duration)
  let audio_encoder : AudioEncoder :=
    { model_path := whisper_path, device := "cuda", num_frames := config.num_frames }
  let vae : VaeModel := { torch_dtype := dtype, scaling_factor := 0.18215, shift_factor := 0 }
  let unet : UnetModel := { dtype := dtype, device := "cpu" }
  let pipeline : Pipeline :=
    { vae := vae, audio_encoder := audio_encoder, unet := unet, device := "cuda" }
  let seed_call := if args.seed ≠ -1 then SeedCall.set args.seed else SeedCall.torch
  let pipeline_calls :=
    (((cut_videos.map CutCall.output_path).zip (cut_audios.map CutCall.output_path)).enum).map
      fun p =>
        let video_out_path := "output_" ++ toString (p.1 + 1) ++ ".mp4"
        { video_path := p.2.1
          audio_path := p.2.2
          video_out_path := video_out_path
          video_mask_path := video_out_path.replace ".mp4" "_mask.mp4"
          num_frames := config.num_frames
          num_inference_steps := args.inference_steps
          guidance_scale := args.guidance_scale
          weight_dtype := dtype
          width := config.resolution
          height := config.resolution : PipelineCall }
  let outputs := pipeline_calls.map PipelineCall.video_out_path
  { dtype := dtype
    total_segments := ts
    cut_videos := cut_videos
    cut_audios := cut_audios
    whisper_model_path := whisper_path
    pipeline := pipeline
    seed_call := seed_call
    pipeline_calls := pipeline_calls
    outputs := outputs
    concat_cmd := concatenate_videos outputs args.video_out_path }

/-- `main` as a fallible computation: it raises `NotImplementedError` exactly when
`whisper_model_path` does, and otherwise produces the `MainResult`. -/
def mainModel (cuda_available : Bool) (capability_major : ℤ) (video_duration : ℚ)
    (config : Config) (args : Args) : Except String MainResult :=
  match whisper_model_path config.cross_attention_dim with
  | Except.error e => Except.error e
  | Except.ok w =>
      Except.ok (mainResult cuda_available capability_major video_duration config args w)

/-! ### Event trace of `main` -/

/-- Observable steps of `main`, in the order the script performs them. -/
inductive Event where
  | probe
  | cutVideo (i : ℕ)
  | cutAudio (i : ℕ)
  | loadScheduler
  | loadAudioEncoder
  | loadVae
  | loadUnet
  | setSeed (s : ℤ)
  | torchSeed
  | process (i : ℕ)
  | concat
  deriving DecidableEq, Repr

/-- The seeding event of lines 204-207: `set_seed(args.seed)` unless
`args.seed == -1`, in which case `torch.seed()`. -/
def seedEvent (seed : ℤ) : Event :=
  if seed ≠ -1 then Event.setSeed seed else Event.torchSeed

/-- The sequence of steps `main` performs, in program order: probe; cut every video
segment (first loop, lines 128-148); cut every audio segment (second loop,
lines 150-168); load the scheduler; then, unless the `NotImplementedError` of
line 177 aborts the run, load the audio encoder, the VAE and the UNet, seed the
RNG, run the pipeline once per segment (lines 213-231) and concatenate. -/
def mainTrace (video_duration : ℚ) (cross_attention_dim seed : ℤ) : List Event :=
  [Event.probe]
    ++ (List.range (nSeg video_duration)).map Event.cutVideo
    ++ (List.range (nSeg video_duration)).map Event.cutAudio
    ++ [Event.loadScheduler]
    ++ (if cross_attention_dim = 768 ∨ cross_attention_dim = 384 then
          [Event.loadAudioEncoder, Event.loadVae, Event.loadUnet]
            ++ [seedEvent seed]
            ++ (List.range (nSeg video_duration)).map Event.process
            ++ [Event.concat]
        else [])

/-- `a` happens strictly before `b` in the trace `t` (both occur exactly once in
every trace we consider, so first-occurrence order is occurrence order). -/
def before (t : List Event) (a b : Event) : Prop :=
  t.indexOf a < t.indexOf b

/-- The spec phase an event belongs to: probe, cutting, model set-up, pipeline
processing, concatenation. -/
def phase : Event → ℕ
  | Event.probe => 0
  | Event.cutVideo _ => 1
  | Event.cutAudio _ => 1
  | Event.loadScheduler => 2
  | Event.loadAudioEncoder => 2
  | Event.loadVae => 2
  | Event.loadUnet => 2
  | Event.setSeed _ => 2
  | Event.torchSeed => 2
  | Event.process _ => 3
  | Event.concat => 4

/-! ### Concrete example inputs, used by the witnesses -/

/-- A parsed argument record with all defaults. -/
def argsEx : Args :=
  { unet_config_path := "configs/unet.yaml"
    inference_ckpt_path := "checkpoints/latentsync_unet.pt"
    video_path := "video.mp4"
    audio_path := "audio.mp3"
    video_out_path := "video_out.mp4"
    inference_steps := 20
    guidance_scale := 1
    seed := 1247 }

/-- A configuration with the `768` attention dimension. -/
def cfgEx : Config :=
  { cross_attention_dim := 768, num_frames := 16, resolution := 256 }

/-! ### Arithmetic facts about the segment count -/

lemma total_segments_eq_ceil {d : ℚ} (hd : 0 < d) :
    total_segments d = ⌈d / segment_duration⌉ := by
  unfold total_segments
  by_cases h5 : d ≤ segment_duration
  · rw [if_pos h5]
    symm
    rw [Int.ceil_eq_iff]
    constructor
    · have : (0 : ℚ) < d / segment_duration := by
        apply div_pos hd; norm_num [segment_duration]
      push_cast
      linarith
    · have : d / segment_duration ≤ 1 := by
        rw [div_le_one (by norm_num [segment_duration])]
        simpa [segment_duration] using h5
      push_cast
      linarith
  · rw [if_neg h5]
    by_cases hfr : d - segment_duration * (⌊d / segment_duration⌋ : ℚ) ≠ 0
    · rw [if_pos hfr]
      have hfr2 : Int.fract (d / segment_duration) ≠ 0 := by
        rw [← Int.self_sub_floor]
        intro h0
        apply hfr
        have h1 : d / segment_duration = (⌊d / segment_duration⌋ : ℚ) := by linarith
        have h2 : d = segment_duration * (⌊d / segment_duration⌋ : ℚ) := by
          rw [← h1]
          norm_num [segment_duration]
          ring
        linarith
      have h2 : (⌈d / segment_duration⌉ : ℚ) = (⌊d / segment_duration⌋ : ℚ) + 1 := by
        rw [Int.ceil_eq_add_one_sub_fract hfr2, ← Int.self_sub_floor]
        ring
      exact_mod_cast h2.symm
    · rw [if_neg hfr]
      push_neg at hfr
      obtain ⟨k, hk⟩ : ∃ k : ℤ, d / segment_duration = (k : ℚ) :=
        ⟨⌊d / segment_duration⌋, by
          have h1 : d = segment_duration * (⌊d / segment_duration⌋ : ℚ) := by linarith
          rw [h1]
          norm_num [segment_duration]⟩
      rw [hk, Int.floor_intCast, Int.ceil_intCast]

lemma nSeg_cast {d : ℚ} (hd : 0 < d) : (nSeg d : ℤ) = ⌈d / segment_duration⌉ := by
  have hpos : 0 < ⌈d / segment_duration⌉ :=
    Int.ceil_pos.mpr (div_pos hd (by norm_num [segment_duration]))
  rw [nSeg, total_segments_eq_ceil hd, Int.toNat_of_nonneg (le_of_lt hpos)]

lemma nSeg_pos {d : ℚ} (hd : 0 < d) : 0 < nSeg d := by
  have hpos : 0 < ⌈d / segment_duration⌉ :=
    Int.ceil_pos.mpr (div_pos hd (by norm_num [segment_duration]))
  have := nSeg_cast hd
  omega

/-- If segment `i` exists, its start `i * 5` lies strictly below the duration. -/
lemma seg_start_lt {d : ℚ} (hd : 0 < d) {i : ℕ} (hi : i < nSeg d) :
    (i : ℚ) * segment_duration < d := by
  have h1 : (i : ℤ) < ⌈d / segment_duration⌉ := by
    rw [← nSeg_cast hd]; exact_mod_cast hi
  have h2 : (i : ℚ) < d / segment_duration := by exact_mod_cast Int.lt_ceil.mp h1
  have h3 : (0 : ℚ) < segment_duration := by norm_num [segment_duration]
  calc (i : ℚ) * segment_duration < d / segment_duration * segment_duration := by
        exact mul_lt_mul_of_pos_right h2 h3
    _ = d := by field_simp
    _ ≤ d := le_refl d

/-- If segment `i` is not the last one, its nominal end `(i+1) * 5` is at most the
duration. -/
lemma seg_end_le {d : ℚ} (hd : 0 < d) {i : ℕ} (hi : i + 1 < nSeg d) :
    ((i : ℚ) + 1) * segment_duration ≤ d := by
  have h1 : ((i : ℤ) + 1) < ⌈d / segment_duration⌉ := by
    rw [← nSeg_cast hd]; exact_mod_cast hi
  have h2 : ((i : ℚ) + 1) < d / segment_duration := by exact_mod_cast Int.lt_ceil.mp h1
  have h3 : (0 : ℚ) < segment_duration := by norm_num [segment_duration]
  have := mul_lt_mul_of_pos_right h2 h3
  have h4 : d / segment_duration * segment_duration = d := by field_simp
  linarith

/-- The last segment's nominal end `n * 5` is at least the duration. -/
lemma seg_last_end {d : ℚ} (hd : 0 < d) {i : ℕ} (hi : i + 1 = nSeg d) :
    d ≤ ((i : ℚ) + 1) * segment_duration := by
  have h1 : ⌈d / segment_duration⌉ = (i : ℤ) + 1 := by
    rw [← nSeg_cast hd]; exact_mod_cast hi.symm
  have h2 : d / segment_duration ≤ ((i : ℚ) + 1) := by
    have := Int.le_ceil (d / segment_duration)
    rw [h1] at this
    exact_mod_cast this
  have h3 : (0 : ℚ) < segment_duration := by norm_num [segment_duration]
  have := mul_le_mul_of_nonneg_right h2 (le_of_lt h3)
  have h4 : d / segment_duration * segment_duration = d := by field_simp
  linarith

/-- C1: for every positive probed duration `d` and the fixed `segment_duration = 5`,
`main` computes `total_segments = ⌈d / segment_duration⌉`; in particular
`total_segments = 1` whenever `d ≤ segment_duration`, and for
`d > segment_duration` it equals `⌊d / segment_duration⌋ + 1` exactly when `d` is
not an integer multiple of `segment_duration`. -/
theorem total_segments_spec :
    segment_duration = 5 ∧
    (∀ d : ℚ, 0 < d → total_segments d = ⌈d / segment_duration⌉) ∧
    (∀ d : ℚ, d ≤ segment_duration → total_segments d = 1) ∧
    (∀ d : ℚ, segment_duration < d →
      (total_segments d = ⌊d / segment_duration⌋ + 1 ↔
        ¬ ∃ k : ℤ, d = (k : ℚ) * segment_duration)) := by
  refine ⟨rfl, fun d hd => total_segments_eq_ceil hd, fun d hd => by
    rw [total_segments, if_pos hd], fun d hd => ?_⟩
  have hnle : ¬ d ≤ segment_duration := not_le.mpr hd
  constructor
  · intro heq hex
    obtain ⟨k, hk⟩ := hex
    have hfl : ⌊d / segment_duration⌋ = k := by
      rw [hk]
      have : (k : ℚ) * segment_duration / segment_duration = (k : ℚ) :=
        mul_div_cancel_right₀ _ (by norm_num [segment_duration])
      rw [this, Int.floor_intCast]
    have hzero : d - segment_duration * (⌊d / segment_duration⌋ : ℚ) = 0 := by
      rw [hfl, hk]; ring
    rw [total_segments, if_neg hnle, if_neg (not_not_intro hzero)] at heq
    omega
  · intro hnex
    rw [total_segments, if_neg hnle, if_pos]
    intro hzero
    apply hnex
    exact ⟨⌊d / segment_duration⌋, by linarith⟩

/-- C1 witness: the theorem applied at the concrete duration `7`. -/
theorem total_segments_spec_witness :
    (0 : ℚ) < 7 ∧ total_segments 7 = ⌈(7 : ℚ) / segment_duration⌉ :=
  ⟨by norm_num, total_segments_spec.2.1 7 (by norm_num)⟩

/-! ### Positions of events in the trace -/

lemma indexOf_map_range {α : Type} [DecidableEq α] {f : ℕ → α}
    (hf : ∀ a b : ℕ, f a = f b → a = b) :
    ∀ {n i : ℕ}, i < n → ((List.range n).map f).indexOf (f i) = i := by
  intro n
  induction n with
  | zero => intro i hi; omega
  | succ m ih =>
      intro i hi
      rw [List.range_succ, List.map_append]
      by_cases him : i < m
      · rw [List.indexOf_append_of_mem (List.mem_map.mpr ⟨i, List.mem_range.mpr him, rfl⟩)]
        exact ih him
      · have hieq : i = m := by omega
        subst hieq
        rw [List.indexOf_append_of_not_mem]
        · simp
        · intro hmem
          rcases List.mem_map.mp hmem with ⟨a, ha, hfa⟩
          have := hf a i hfa
          rw [List.mem_range] at ha
          omega

/-- The trace on a valid `cross_attention_dim`, flattened into a right-nested
chain of appends. -/
lemma mainTrace_valid (d : ℚ) (cad seed : ℤ) (hcad : cad = 768 ∨ cad = 384) :
    mainTrace d cad seed =
      [Event.probe]
        ++ ((List.range (nSeg d)).map Event.cutVideo
          ++ ((List.range (nSeg d)).map Event.cutAudio
            ++ ([Event.loadScheduler]
              ++ ([Event.loadAudioEncoder, Event.loadVae, Event.loadUnet]
                ++ ([seedEvent seed]
                  ++ ((List.range (nSeg d)).map Event.process
                    ++ [Event.concat])))))) := by
  rw [mainTrace, if_pos hcad]
  simp [List.append_assoc]

lemma seedEvent_ne_process (s : ℤ) (k : ℕ) : seedEvent s ≠ Event.process k := by
  rw [seedEvent]; split <;> simp

lemma idx_cutVideo {d : ℚ} {cad seed : ℤ} (hcad : cad = 768 ∨ cad = 384)
    {i : ℕ} (hi : i < nSeg d) :
    (mainTrace d cad seed).indexOf (Event.cutVideo i) = 1 + i := by
  rw [mainTrace_valid d cad seed hcad,
    List.indexOf_append_of_not_mem (by simp),
    List.indexOf_append_of_mem (List.mem_map.mpr ⟨i, List.mem_range.mpr hi, rfl⟩),
    indexOf_map_range (fun a b h => Event.cutVideo.inj h) hi]
  simp

lemma idx_cutAudio {d : ℚ} {cad seed : ℤ} (hcad : cad = 768 ∨ cad = 384)
    {i : ℕ} (hi : i < nSeg d) :
    (mainTrace d cad seed).indexOf (Event.cutAudio i) = 1 + nSeg d + i := by
  rw [mainTrace_valid d cad seed hcad,
    List.indexOf_append_of_not_mem (by simp),
    List.indexOf_append_of_not_mem (by simp),
    List.indexOf_append_of_mem (List.mem_map.mpr ⟨i, List.mem_range.mpr hi, rfl⟩),
    indexOf_map_range (fun a b h => Event.cutAudio.inj h) hi]
  simp
  omega

lemma idx_setSeed {d : ℚ} {cad seed : ℤ} (hcad : cad = 768 ∨ cad = 384)
    (hseed : seed ≠ -1) :
    (mainTrace d cad seed).indexOf (Event.setSeed seed) = 2 * nSeg d + 5 := by
  have hse : seedEvent seed = Event.setSeed seed := by rw [seedEvent, if_pos hseed]
  rw [mainTrace_valid d cad seed hcad,
    List.indexOf_append_of_not_mem (by simp),
    List.indexOf_append_of_not_mem (by simp),
    List.indexOf_append_of_not_mem (by simp),
    List.indexOf_append_of_not_mem (by simp),
    List.indexOf_append_of_not_mem (by simp),
    List.indexOf_append_of_mem (by rw [hse]; simp), hse, List.indexOf_cons_self]
  simp
  omega

lemma idx_process {d : ℚ} {cad seed : ℤ} (hcad : cad = 768 ∨ cad = 384)
    {k : ℕ} (hk : k < nSeg d) :
    (mainTrace d cad seed).indexOf (Event.process k) = 2 * nSeg d + 6 + k := by
  rw [mainTrace_valid d cad seed hcad,
    List.indexOf_append_of_not_mem (by simp),
    List.indexOf_append_of_not_mem (by simp),
    List.indexOf_append_of_not_mem (by simp),
    List.indexOf_append_of_not_mem (by simp),
    List.indexOf_append_of_not_mem (by simp),
    List.indexOf_append_of_not_mem
      (by simp; exact fun h => seedEvent_ne_process seed k h.symm),
    List.indexOf_append_of_mem (List.mem_map.mpr ⟨k, List.mem_range.mpr hk, rfl⟩),
    indexOf_map_range (fun a b h => Event.process.inj h) hk]
  simp
  omega

lemma nSeg_six : nSeg 6 = 2 := by
  have h : total_segments 6 = 2 := by norm_num [total_segments, segment_duration]
  rw [nSeg, h]
  rfl

/-- C2 counterexample: at duration 6 (two segments, `cross_attention_dim = 768`,
default seed 1247) the code cuts segment 2's video before it processes segment 1,
so per-segment cut-then-process interleaving fails. -/
theorem seq_interleaved_counterexample :
    ¬ (∀ i : ℕ, i + 1 < nSeg 6 →
        before (mainTrace 6 768 1247) (Event.cutVideo i) (Event.process i) ∧
        before (mainTrace 6 768 1247) (Event.cutAudio i) (Event.process i) ∧
        before (mainTrace 6 768 1247) (Event.process i) (Event.cutVideo (i + 1)) ∧
        before (mainTrace 6 768 1247) (Event.process i) (Event.cutAudio (i + 1)) ∧
        before (mainTrace 6 768 1247) (Event.process i) (Event.process (i + 1))) := by
  intro h
  have h0 := h 0 (by rw [nSeg_six]; omega)
  have hbad := h0.2.2.1
  rw [before, idx_process (Or.inl rfl) (by rw [nSeg_six]; omega),
    idx_cutVideo (Or.inl rfl) (by rw [nSeg_six]; omega), nSeg_six] at hbad
  omega

/-- C2 amended: execution is strictly sequential but in three passes rather than
interleaved per segment: all video segments are cut in segment order, then all
audio segments are cut in segment order, then the segments are processed by the
pipeline in segment order; every cut of every segment precedes every pipeline
invocation. -/
theorem segment_phase_order (d : ℚ) (cad seed : ℤ) (hcad : cad = 768 ∨ cad = 384) :
    ∀ i j : ℕ, i < nSeg d → j < nSeg d →
      (i < j →
        before (mainTrace d cad seed) (Event.cutVideo i) (Event.cutVideo j) ∧
        before (mainTrace d cad seed) (Event.cutAudio i) (Event.cutAudio j) ∧
        before (mainTrace d cad seed) (Event.process i) (Event.process j)) ∧
      before (mainTrace d cad seed) (Event.cutVideo i) (Event.cutAudio j) ∧
      before (mainTrace d cad seed) (Event.cutAudio i) (Event.process j) := by
  intro i j hi hj
  constructor
  · intro hij
    refine ⟨?_, ?_, ?_⟩
    · rw [before, idx_cutVideo hcad hi, idx_cutVideo hcad hj]; omega
    · rw [before, idx_cutAudio hcad hi, idx_cutAudio hcad hj]; omega
    · rw [before, idx_process hcad hi, idx_process hcad hj]; omega
  · constructor
    · rw [before, idx_cutVideo hcad hi, idx_cutAudio hcad hj]; omega
    · rw [before, idx_cutAudio hcad hi, idx_process hcad hj]; omega

/-- C2 amended witness: the theorem applied to duration 6, the 768 configuration,
the default seed and segments 0 and 1. -/
theorem segment_phase_order_witness :
    before (mainTrace 6 768 1247) (Event.cutVideo 0) (Event.cutAudio 1) ∧
    before (mainTrace 6 768 1247) (Event.cutAudio 0) (Event.process 1) :=
  (segment_phase_order 6 768 1247 (Or.inl rfl) 0 1 (by simp [nSeg_six])
    (by simp [nSeg_six])).2

/-! ### Phase ordering of the whole run -/

lemma pairwise_of_total {α : Type} {R : α → α → Prop} (h : ∀ a b, R a b) :
    ∀ l : List α, l.Pairwise R := by
  intro l
  induction l with
  | nil => simp
  | cons x xs ih => exact List.Pairwise.cons (fun b _ => h x b) ih

lemma phase_seedEvent (seed : ℤ) : phase (seedEvent seed) = 2 := by
  rw [seedEvent]; split <;> rfl

/-- C6: the phase of the steps of `main` never decreases along the trace: the probe
precedes all cutting, all cutting precedes model set-up, which precedes every
pipeline invocation, which precede the final concatenation. -/
theorem main_phases_sorted (d : ℚ) (cad seed : ℤ) :
    ((mainTrace d cad seed).map phase).Pairwise (· ≤ ·) := by
  rw [List.pairwise_map]
  have hcv : ∀ b ∈ (List.range (nSeg d)).map Event.cutVideo, phase b = 1 := by
    intro b hb; rcases List.mem_map.mp hb with ⟨i, _, rfl⟩; rfl
  have hca : ∀ b ∈ (List.range (nSeg d)).map Event.cutAudio, phase b = 1 := by
    intro b hb; rcases List.mem_map.mp hb with ⟨i, _, rfl⟩; rfl
  have hpr : ∀ b ∈ (List.range (nSeg d)).map Event.process, phase b = 3 := by
    intro b hb; rcases List.mem_map.mp hb with ⟨i, _, rfl⟩; rfl
  have pcv : ((List.range (nSeg d)).map Event.cutVideo).Pairwise
      (fun a b => phase a ≤ phase b) := by
    rw [List.pairwise_map]; exact pairwise_of_total (fun a b => le_refl _) _
  have pca : ((List.range (nSeg d)).map Event.cutAudio).Pairwise
      (fun a b => phase a ≤ phase b) := by
    rw [List.pairwise_map]; exact pairwise_of_total (fun a b => le_refl _) _
  have ppr : ((List.range (nSeg d)).map Event.process).Pairwise
      (fun a b => phase a ≤ phase b) := by
    rw [List.pairwise_map]; exact pairwise_of_total (fun a b => le_refl _) _
  by_cases hcad : cad = 768 ∨ cad = 384
  · rw [mainTrace_valid d cad seed hcad]
    have b7 : ∀ b ∈ [Event.concat], 3 ≤ phase b := by
      intro b hb; rw [List.mem_singleton] at hb; subst hb; simp [phase]
    have b6 : ∀ b ∈ (List.range (nSeg d)).map Event.process ++ [Event.concat],
        2 ≤ phase b := by
      intro b hb
      rcases List.mem_append.mp hb with h | h
      · rw [hpr b h]; omega
      · exact le_trans (by omega) (b7 b h)
    have b5 : ∀ b ∈ [seedEvent seed]
        ++ ((List.range (nSeg d)).map Event.process ++ [Event.concat]),
        2 ≤ phase b := by
      intro b hb
      rcases List.mem_append.mp hb with h | h
      · rw [List.mem_singleton] at h; subst h; rw [phase_seedEvent]
      · exact b6 b h
    have b4 : ∀ b ∈ [Event.loadAudioEncoder, Event.loadVae, Event.loadUnet]
        ++ ([seedEvent seed]
          ++ ((List.range (nSeg d)).map Event.process ++ [Event.concat])),
        2 ≤ phase b := by
      intro b hb
      rcases List.mem_append.mp hb with h | h
      · simp only [List.mem_cons, List.not_mem_nil, or_false] at h
        rcases h with rfl | rfl | rfl <;> simp [phase]
      · exact b5 b h
    have b3 : ∀ b ∈ [Event.loadScheduler]
        ++ ([Event.loadAudioEncoder, Event.loadVae, Event.loadUnet]
          ++ ([seedEvent seed]
            ++ ((List.range (nSeg d)).map Event.process ++ [Event.concat]))),
        1 ≤ phase b := by
      intro b hb
      rcases List.mem_append.mp hb with h | h
      · rw [List.mem_singleton] at h; subst h; simp [phase]
      · exact le_trans (by omega) (b4 b h)
    have b2 : ∀ b ∈ (List.range (nSeg d)).map Event.cutAudio
        ++ ([Event.loadScheduler]
          ++ ([Event.loadAudioEncoder, Event.loadVae, Event.loadUnet]
            ++ ([seedEvent seed]
              ++ ((List.range (nSeg d)).map Event.process ++ [Event.concat])))),
        1 ≤ phase b := by
      intro b hb
      rcases List.mem_append.mp hb with h | h
      · rw [hca b h]
      · exact b3 b h
    refine List.pairwise_append.mpr ⟨by simp, ?_, ?_⟩
    swap
    · intro a ha b hb
      rw [List.mem_singleton] at ha; subst ha
      exact Nat.zero_le _
    refine List.pairwise_append.mpr ⟨pcv, ?_, ?_⟩
    swap
    · intro a ha b hb
      rw [hcv a ha]
      exact b2 b hb
    refine List.pairwise_append.mpr ⟨pca, ?_, ?_⟩
    swap
    · intro a ha b hb
      rw [hca a ha]
      exact b3 b hb
    refine List.pairwise_append.mpr ⟨by simp, ?_, ?_⟩
    swap
    · intro a ha b hb
      rw [List.mem_singleton] at ha; subst ha
      exact le_trans (by simp [phase]) (b4 b hb)
    refine List.pairwise_append.mpr ⟨?_, ?_, ?_⟩
    · refine List.Pairwise.cons ?_ (List.Pairwise.cons ?_ ?_)
      · intro b hb
        simp only [List.mem_cons, List.mem_singleton, List.not_mem_nil, or_false] at hb
        rcases hb with rfl | rfl <;> exact le_refl _
      · intro b hb
        simp only [List.mem_singleton] at hb
        subst hb
        exact le_refl _
      · simp
    swap
    · intro a ha b hb
      simp only [List.mem_cons, List.mem_singleton, List.not_mem_nil, or_false] at ha
      have ha2 : phase a = 2 := by rcases ha with rfl | rfl | rfl <;> rfl
      rw [ha2]
      exact b5 b hb
    refine List.pairwise_append.mpr ⟨by simp, ?_, ?_⟩
    swap
    · intro a ha b hb
      rw [List.mem_singleton] at ha; subst ha
      rw [phase_seedEvent]
      exact b6 b hb
    refine List.pairwise_append.mpr ⟨ppr, by simp, ?_⟩
    intro a ha b hb
    rw [hpr a ha]
    exact b7 b hb
  · rw [mainTrace, if_neg hcad]
    simp only [List.append_nil, List.append_assoc]
    have b3 : ∀ b ∈ [Event.loadScheduler], 1 ≤ phase b := by
      intro b hb; rw [List.mem_singleton] at hb; subst hb; simp [phase]
    have b2 : ∀ b ∈ (List.range (nSeg d)).map Event.cutAudio ++ [Event.loadScheduler],
        1 ≤ phase b := by
      intro b hb
      rcases List.mem_append.mp hb with h | h
      · rw [hca b h]
      · exact b3 b h
    refine List.pairwise_append.mpr ⟨by simp, ?_, ?_⟩
    swap
    · intro a ha b hb
      rw [List.mem_singleton] at ha; subst ha
      exact Nat.zero_le _
    refine List.pairwise_append.mpr ⟨pcv, ?_, ?_⟩
    swap
    · intro a ha b hb
      rw [hcv a ha]
      exact b2 b hb
    refine List.pairwise_append.mpr ⟨pca, by simp, ?_⟩
    intro a ha b hb
    rw [hca a ha]
    exact b3 b hb

/-! ### Unfolding lemmas for `mainModel` and `mainResult` -/

lemma mainModel_eq_of_whisper_ok {cuda : Bool} {cap : ℤ} {d : ℚ} {config : Config}
    {args : Args} {w : String}
    (h : whisper_model_path config.cross_attention_dim = Except.ok w) :
    mainModel cuda cap d config args = Except.ok (mainResult cuda cap d config args w) := by
  unfold mainModel
  rw [h]

lemma mainModel_eq_of_whisper_error {cuda : Bool} {cap : ℤ} {d : ℚ} {config : Config}
    {args : Args} {e : String}
    (h : whisper_model_path config.cross_attention_dim = Except.error e) :
    mainModel cuda cap d config args = Except.error e := by
  unfold mainModel
  rw [h]

lemma whisper_error_of_invalid {cad : ℤ} (h768 : cad ≠ 768) (h384 : cad ≠ 384) :
    whisper_model_path cad = Except.error "cross_attention_dim must be 768 or 384" := by
  rw [whisper_model_path, if_neg h768, if_neg h384]

/-- Inverting `mainModel ... = ok r`: the configuration is valid and `r` is the
happy-path result. -/
lemma mainModel_ok {cuda : Bool} {cap : ℤ} {d : ℚ} {config : Config} {args : Args}
    {r : MainResult} (hok : mainModel cuda cap d config args = Except.ok r) :
    (config.cross_attention_dim = 768 ∨ config.cross_attention_dim = 384) ∧
    ∃ w, whisper_model_path config.cross_attention_dim = Except.ok w ∧
      r = mainResult cuda cap d config args w := by
  by_cases h768 : config.cross_attention_dim = 768
  · have hw : whisper_model_path config.cross_attention_dim =
        Except.ok "checkpoints/whisper/small.pt" := by
      rw [whisper_model_path, if_pos h768]
    rw [mainModel_eq_of_whisper_ok hw] at hok
    exact ⟨Or.inl h768, _, hw, (Except.ok.inj hok).symm⟩
  · by_cases h384 : config.cross_attention_dim = 384
    · have hw : whisper_model_path config.cross_attention_dim =
          Except.ok "checkpoints/whisper/tiny.pt" := by
        rw [whisper_model_path, if_neg h768, if_pos h384]
      rw [mainModel_eq_of_whisper_ok hw] at hok
      exact ⟨Or.inr h384, _, hw, (Except.ok.inj hok).symm⟩
    · rw [mainModel_eq_of_whisper_error (whisper_error_of_invalid h768 h384)] at hok
      exact absurd hok (by simp)

lemma mainResult_dtype (cuda : Bool) (cap : ℤ) (d : ℚ) (config : Config) (args : Args)
    (w : String) :
    (mainResult cuda cap d config args w).dtype =
      if cuda && decide (7 < cap) then DType.float16 else DType.float32 := rfl

lemma mainResult_cut_videos (cuda : Bool) (cap : ℤ) (d : ℚ) (config : Config)
    (args : Args) (w : String) :
    (mainResult cuda cap d config args w).cut_videos =
      (List.range (nSeg d)).map fun (i : ℕ) =>
        cut_video args.video_path ("assets/" ++ toString (i + 1) ++ ".mp4")
          ((i : ℚ) * segment_duration)
          (min (((i : ℚ) + 1) * segment_duration) d) := rfl

lemma mainResult_cut_audios (cuda : Bool) (cap : ℤ) (d : ℚ) (config : Config)
    (args : Args) (w : String) :
    (mainResult cuda cap d config args w).cut_audios =
      (List.range (nSeg d)).map fun (i : ℕ) =>
        cut_audio args.audio_path ("assets/" ++ toString (i + 1) ++ ".mp3")
          ((i : ℚ) * segment_duration)
          (min (((i : ℚ) + 1) * segment_duration) d) := rfl

lemma enum_map_range {α : Type} (h : ℕ → α) (n : ℕ) :
    ((List.range n).map h).enum = (List.range n).map fun i => (i, h i) := by
  apply List.ext_getElem?
  intro i
  by_cases hi : i < n
  · simp [List.enum_eq_enumFrom, List.getElem?_enumFrom, List.getElem?_map,
      List.getElem?_range hi]
  · rw [List.getElem?_eq_none, List.getElem?_eq_none] <;>
      simp [List.enum_eq_enumFrom] <;> omega

/-- The list of pipeline invocations, flattened into a map over segment indices. -/
lemma mainResult_pipeline_calls (cuda : Bool) (cap : ℤ) (d : ℚ) (config : Config)
    (args : Args) (w : String) :
    (mainResult cuda cap d config args w).pipeline_calls =
      (List.range (nSeg d)).map fun i =>
        ({ video_path := "assets/" ++ toString (i + 1) ++ ".mp4"
           audio_path := "assets/" ++ toString (i + 1) ++ ".mp3"
           video_out_path := "output_" ++ toString (i + 1) ++ ".mp4"
           video_mask_path :=
             ("output_" ++ toString (i + 1) ++ ".mp4").replace ".mp4" "_mask.mp4"
           num_frames := config.num_frames
           num_inference_steps := args.inference_steps
           guidance_scale := args.guidance_scale
           weight_dtype := if cuda && decide (7 < cap) then DType.float16 else DType.float32
           width := config.resolution
           height := config.resolution } : PipelineCall) := by
  simp only [mainResult]
  rw [List.map_map, List.map_map, List.zip_map', enum_map_range, List.map_map]
  rfl

lemma mainResult_outputs (cuda : Bool) (cap : ℤ) (d : ℚ) (config : Config)
    (args : Args) (w : String) :
    (mainResult cuda cap d config args w).outputs =
      (List.range (nSeg d)).map fun i => "output_" ++ toString (i + 1) ++ ".mp4" := by
  have h1 : (mainResult cuda cap d config args w).outputs =
      (mainResult cuda cap d config args w).pipeline_calls.map PipelineCall.video_out_path :=
    rfl
  rw [h1, mainResult_pipeline_calls, List.map_map]
  rfl

lemma mainResult_concat_cmd (cuda : Bool) (cap : ℤ) (d : ℚ) (config : Config)
    (args : Args) (w : String) :
    (mainResult cuda cap d config args w).concat_cmd =
      concatenate_videos (mainResult cuda cap d config args w).outputs
        args.video_out_path := rfl

/-! ### Command-line interface -/

/-- C3: parsing succeeds exactly when the checkpoint path, input video, input audio
and output path flags are all present; when only those four are given, the
remaining flags take their declared defaults (`20` inference steps, guidance scale
`1.0`, seed `1247`, unet config `"configs/unet.yaml"`). -/
theorem cli_spec :
    (∀ c : CmdLine, (parse_args c).isSome ↔
      (c.inference_ckpt_path.isSome ∧ c.video_path.isSome ∧
        c.audio_path.isSome ∧ c.video_out_path.isSome)) ∧
    (∀ ckpt vp ap vop : String,
      parse_args
        { unet_config_path := none
          inference_ckpt_path := some ckpt
          video_path := some vp
          audio_path := some ap
          video_out_path := some vop
          inference_steps := none
          guidance_scale := none
          seed := none } =
      some
        { unet_config_path := "configs/unet.yaml"
          inference_ckpt_path := ckpt
          video_path := vp
          audio_path := ap
          video_out_path := vop
          inference_steps := 20
          guidance_scale := 1
          seed := 1247 }) := by
  constructor
  · intro c
    obtain ⟨u, ck, vp, ap, vo, st, gs, sd⟩ := c
    cases ck <;> cases vp <;> cases ap <;> cases vo <;> simp [parse_args]
  · intro ckpt vp ap vop
    rfl

/-- C3 witness: the defaults clause applied at concrete flag values. -/
theorem cli_spec_witness :
    parse_args
      { unet_config_path := none
        inference_ckpt_path := some "checkpoints/latentsync_unet.pt"
        video_path := some "video.mp4"
        audio_path := some "audio.mp3"
        video_out_path := some "video_out.mp4"
        inference_steps := none
        guidance_scale := none
        seed := none } =
    some
      { unet_config_path := "configs/unet.yaml"
        inference_ckpt_path := "checkpoints/latentsync_unet.pt"
        video_path := "video.mp4"
        audio_path := "audio.mp3"
        video_out_path := "video_out.mp4"
        inference_steps := 20
        guidance_scale := 1
        seed := 1247 } :=
  cli_spec.2 "checkpoints/latentsync_unet.pt" "video.mp4" "audio.mp3" "video_out.mp4"

/-! ### The whisper-selection error -/

/-- C4: `main` fails (raising `NotImplementedError`) if and only if
`config.model.cross_attention_dim` is neither `768` nor `384`; for those two
values the run reaches the happy path. -/
theorem whisper_error_spec :
    ∀ (cuda : Bool) (cap : ℤ) (d : ℚ) (config : Config) (args : Args),
      ((∃ e, mainModel cuda cap d config args = Except.error e) ↔
        (config.cross_attention_dim ≠ 768 ∧ config.cross_attention_dim ≠ 384)) ∧
      ((config.cross_attention_dim = 768 ∨ config.cross_attention_dim = 384) →
        ∃ r, mainModel cuda cap d config args = Except.ok r) := by
  intro cuda cap d config args
  by_cases h768 : config.cross_attention_dim = 768
  · have hw : whisper_model_path config.cross_attention_dim =
        Except.ok "checkpoints/whisper/small.pt" := by
      rw [whisper_model_path, if_pos h768]
    rw [mainModel_eq_of_whisper_ok hw]
    constructor
    · simp [h768]
    · intro _; exact ⟨_, rfl⟩
  · by_cases h384 : config.cross_attention_dim = 384
    · have hw : whisper_model_path config.cross_attention_dim =
          Except.ok "checkpoints/whisper/tiny.pt" := by
        rw [whisper_model_path, if_neg h768, if_pos h384]
      rw [mainModel_eq_of_whisper_ok hw]
      constructor
      · simp [h384]
      · intro _; exact ⟨_, rfl⟩
    · rw [mainModel_eq_of_whisper_error (whisper_error_of_invalid h768 h384)]
      constructor
      · simp [h768, h384]
      · intro hor; rcases hor with h | h <;> contradiction

/-- C4 witness: with `cross_attention_dim = 768` the run reaches the happy path,
and with `500` it errors. -/
theorem whisper_error_spec_witness :
    (∃ r, mainModel true 8 6 cfgEx argsEx = Except.ok r) ∧
    (∃ e, mainModel true 8 6 { cfgEx with cross_attention_dim := 500 } argsEx =
      Except.error e) :=
  ⟨(whisper_error_spec true 8 6 cfgEx argsEx).2 (Or.inl rfl),
    ((whisper_error_spec true 8 6 { cfgEx with cross_attention_dim := 500 } argsEx).1).mpr
      ⟨by decide, by decide⟩⟩

/-! ### Pipeline invocations and concatenation -/

lemma countP_process_trace (d : ℚ) (cad seed : ℤ) (hcad : cad = 768 ∨ cad = 384) :
    (mainTrace d cad seed).countP
      (fun e => match e with | Event.process _ => true | _ => false) = nSeg d := by
  rw [mainTrace_valid d cad seed hcad]
  have h1 : ((fun e => match e with | Event.process _ => true | _ => false)
      ∘ Event.cutVideo) = fun _ => false := rfl
  have h2 : ((fun e => match e with | Event.process _ => true | _ => false)
      ∘ Event.cutAudio) = fun _ => false := rfl
  have h3 : ((fun e => match e with | Event.process _ => true | _ => false)
      ∘ Event.process) = fun _ => true := rfl
  by_cases hs : seed ≠ -1 <;>
    simp [seedEvent, hs, List.countP_append, List.countP_cons, List.countP_map,
      h1, h2, h3]

/-- C5: on every successful run with `N = total_segments`, the pipeline is invoked
exactly `N` times, once per clip in ascending segment order, producing
`output_1.mp4 .. output_N.mp4`, and those files are concatenated in that order
into the file named by `--video_out_path`. -/
theorem pipeline_invocations_spec :
    ∀ (cuda : Bool) (cap : ℤ) (d : ℚ) (config : Config) (args : Args) (r : MainResult),
      mainModel cuda cap d config args = Except.ok r →
      r.pipeline_calls.length = nSeg d ∧
      r.pipeline_calls.map PipelineCall.video_out_path =
        (List.range (nSeg d)).map (fun i => "output_" ++ toString (i + 1) ++ ".mp4") ∧
      r.outputs =
        (List.range (nSeg d)).map (fun i => "output_" ++ toString (i + 1) ++ ".mp4") ∧
      r.concat_cmd =
        concatenate_videos
          ((List.range (nSeg d)).map (fun i => "output_" ++ toString (i + 1) ++ ".mp4"))
          args.video_out_path ∧
      (mainTrace d config.cross_attention_dim args.seed).countP
        (fun e => match e with | Event.process _ => true | _ => false) = nSeg d ∧
      (∀ i j : ℕ, i < nSeg d → j < nSeg d → i < j →
        before (mainTrace d config.cross_attention_dim args.seed)
          (Event.process i) (Event.process j)) := by
  intro cuda cap d config args r hok
  obtain ⟨hcad, w, hw, rfl⟩ := mainModel_ok hok
  refine ⟨?_, ?_, mainResult_outputs cuda cap d config args w, ?_,
    countP_process_trace d _ _ hcad, ?_⟩
  · rw [mainResult_pipeline_calls]
    simp
  · rw [mainResult_pipeline_calls, List.map_map]
    rfl
  · rw [mainResult_concat_cmd, mainResult_outputs]
  · intro i j hi hj hij
    rw [before, idx_process hcad hi, idx_process hcad hj]
    omega

/-- C5 witness: the theorem applied to a successful concrete run of duration 6. -/
theorem pipeline_invocations_spec_witness :
    (mainResult true 8 6 cfgEx argsEx "checkpoints/whisper/small.pt").pipeline_calls.length =
      nSeg 6 :=
  (pipeline_invocations_spec true 8 6 cfgEx argsEx _ rfl).1

/-! ### Pass-through of parsed values -/

/-- C7: every pipeline invocation receives the parsed `--inference_steps` and
`--guidance_scale` and the loaded `num_frames` and `resolution` unchanged, and
the cut functions receive the computed segment timestamps unchanged (and forward
`ss = start_time`, `t = end_time - start_time` to ffmpeg). -/
theorem passthrough_spec :
    ∀ (cuda : Bool) (cap : ℤ) (d : ℚ) (config : Config) (args : Args) (r : MainResult),
      mainModel cuda cap d config args = Except.ok r →
      (∀ c ∈ r.pipeline_calls,
        c.num_inference_steps = args.inference_steps ∧
        c.guidance_scale = args.guidance_scale ∧
        c.num_frames = config.num_frames ∧
        c.width = config.resolution ∧
        c.height = config.resolution) ∧
      (∀ i : ℕ, i < nSeg d →
        r.cut_videos[i]? = some (cut_video args.video_path
          ("assets/" ++ toString (i + 1) ++ ".mp4")
          ((i : ℚ) * segment_duration)
          (min (((i : ℚ) + 1) * segment_duration) d)) ∧
        r.cut_audios[i]? = some (cut_audio args.audio_path
          ("assets/" ++ toString (i + 1) ++ ".mp3")
          ((i : ℚ) * segment_duration)
          (min (((i : ℚ) + 1) * segment_duration) d))) ∧
      (∀ cc ∈ r.cut_videos, cc.ss = cc.start_time ∧ cc.t = cc.end_time - cc.start_time) ∧
      (∀ cc ∈ r.cut_audios, cc.ss = cc.start_time ∧ cc.t = cc.end_time - cc.start_time) := by
  intro cuda cap d config args r hok
  obtain ⟨hcad, w, hw, rfl⟩ := mainModel_ok hok
  refine ⟨?_, ?_, ?_, ?_⟩
  · intro c hc
    rw [mainResult_pipeline_calls] at hc
    rcases List.mem_map.mp hc with ⟨i, _, rfl⟩
    exact ⟨rfl, rfl, rfl, rfl, rfl⟩
  · intro i hi
    rw [mainResult_cut_videos, mainResult_cut_audios]
    constructor <;> simp [List.getElem?_range hi]
  · intro cc hcc
    rw [mainResult_cut_videos] at hcc
    rcases List.mem_map.mp hcc with ⟨i, _, rfl⟩
    exact ⟨rfl, rfl⟩
  · intro cc hcc
    rw [mainResult_cut_audios] at hcc
    rcases List.mem_map.mp hcc with ⟨i, _, rfl⟩
    exact ⟨rfl, rfl⟩

/-- C7 witness: the pass-through facts for segment 0 of a concrete run of
duration 6. -/
theorem passthrough_spec_witness :
    (mainResult true 8 6 cfgEx argsEx "checkpoints/whisper/small.pt").cut_videos[0]? =
      some (cut_video argsEx.video_path "assets/1.mp4"
        ((0 : ℕ) * segment_duration) (min (((0 : ℕ) + 1) * segment_duration) 6)) :=
  ((passthrough_spec true 8 6 cfgEx argsEx _ rfl).2.1 0 (by simp [nSeg_six])).1

/-! ### Segment boundaries tile the video -/

/-- Inversion of an indexed lookup into the cut-video list. -/
lemma cut_videos_inv {cuda : Bool} {cap : ℤ} {d : ℚ} {config : Config} {args : Args}
    {w : String} {i : ℕ} {cv : CutCall}
    (h : (mainResult cuda cap d config args w).cut_videos[i]? = some cv) :
    i < nSeg d ∧
    cv = cut_video args.video_path ("assets/" ++ toString (i + 1) ++ ".mp4")
      ((i : ℚ) * segment_duration) (min (((i : ℚ) + 1) * segment_duration) d) := by
  rw [mainResult_cut_videos] at h
  by_cases hi : i < nSeg d
  · simp [List.getElem?_range hi] at h
    exact ⟨hi, h.symm⟩
  · rw [List.getElem?_eq_none (by simp; omega)] at h
    exact absurd h (by simp)

/-- C8: for every segment index `i`, the video clip and the audio clip are cut with
the identical boundaries `start = i*5`, `end = min((i+1)*5, duration)` and are
paired in the `i`-th pipeline invocation; for a positive duration the segments
tile `[0, duration]` with no gaps and no overlaps. -/
theorem segmentation_spec :
    ∀ (cuda : Bool) (cap : ℤ) (d : ℚ) (config : Config) (args : Args) (r : MainResult),
      0 < d →
      mainModel cuda cap d config args = Except.ok r →
      (∀ i : ℕ, i < nSeg d → ∃ cv ca pc,
        r.cut_videos[i]? = some cv ∧ r.cut_audios[i]? = some ca ∧
        r.pipeline_calls[i]? = some pc ∧
        cv.start_time = (i : ℚ) * segment_duration ∧
        cv.end_time = min (((i : ℚ) + 1) * segment_duration) d ∧
        ca.start_time = cv.start_time ∧ ca.end_time = cv.end_time ∧
        pc.video_path = cv.output_path ∧ pc.audio_path = ca.output_path) ∧
      (∀ (i : ℕ) (cv : CutCall), r.cut_videos[i]? = some cv →
        cv.start_time < cv.end_time) ∧
      (∀ cv : CutCall, r.cut_videos[0]? = some cv → cv.start_time = 0) ∧
      (∀ (i : ℕ) (cv cv' : CutCall), r.cut_videos[i]? = some cv →
        r.cut_videos[i + 1]? = some cv' → cv.end_time = cv'.start_time) ∧
      (∀ (i : ℕ) (cv : CutCall), i + 1 = nSeg d → r.cut_videos[i]? = some cv →
        cv.end_time = d) := by
  intro cuda cap d config args r hd hok
  obtain ⟨hcad, w, hw, rfl⟩ := mainModel_ok hok
  refine ⟨?_, ?_, ?_, ?_, ?_⟩
  · intro i hi
    have h1 : (mainResult cuda cap d config args w).cut_videos[i]? =
        some (cut_video args.video_path ("assets/" ++ toString (i + 1) ++ ".mp4")
          ((i : ℚ) * segment_duration) (min (((i : ℚ) + 1) * segment_duration) d)) := by
      rw [mainResult_cut_videos]
      simp [List.getElem?_range hi]
    have h2 : (mainResult cuda cap d config args w).cut_audios[i]? =
        some (cut_audio args.audio_path ("assets/" ++ toString (i + 1) ++ ".mp3")
          ((i : ℚ) * segment_duration) (min (((i : ℚ) + 1) * segment_duration) d)) := by
      rw [mainResult_cut_audios]
      simp [List.getElem?_range hi]
    have h3 : (mainResult cuda cap d config args w).pipeline_calls[i]? =
        some ({ video_path := "assets/" ++ toString (i + 1) ++ ".mp4"
                audio_path := "assets/" ++ toString (i + 1) ++ ".mp3"
                video_out_path := "output_" ++ toString (i + 1) ++ ".mp4"
                video_mask_path :=
                  ("output_" ++ toString (i + 1) ++ ".mp4").replace ".mp4" "_mask.mp4"
                num_frames := config.num_frames
                num_inference_steps := args.inference_steps
                guidance_scale := args.guidance_scale
                weight_dtype :=
                  if cuda && decide (7 < cap) then DType.float16 else DType.float32
                width := config.resolution
                height := config.resolution } : PipelineCall) := by
      rw [mainResult_pipeline_calls]
      simp [List.getElem?_range hi]
    exact ⟨_, _, _, h1, h2, h3, rfl, rfl, rfl, rfl, rfl, rfl⟩
  · intro i cv h
    obtain ⟨hi, rfl⟩ := cut_videos_inv h
    show (i : ℚ) * segment_duration < min (((i : ℚ) + 1) * segment_duration) d
    rw [lt_min_iff]
    refine ⟨?_, seg_start_lt hd hi⟩
    have h5 : (0 : ℚ) < segment_duration := by norm_num [segment_duration]
    nlinarith
  · intro cv h
    obtain ⟨hi, rfl⟩ := cut_videos_inv h
    show ((0 : ℕ) : ℚ) * segment_duration = 0
    simp
  · intro i cv cv' h h'
    obtain ⟨hi, rfl⟩ := cut_videos_inv h
    obtain ⟨hi', rfl⟩ := cut_videos_inv h'
    show min (((i : ℚ) + 1) * segment_duration) d = ((i + 1 : ℕ) : ℚ) * segment_duration
    rw [min_eq_left (seg_end_le hd hi')]
    push_cast
    ring
  · intro i cv hlast h
    obtain ⟨hi, rfl⟩ := cut_videos_inv h
    show min (((i : ℚ) + 1) * segment_duration) d = d
    exact min_eq_right (seg_last_end hd hlast)

/-- C8 witness: on a concrete run of duration 6, segment 0 starts at time 0. -/
theorem segmentation_spec_witness :
    (cut_video argsEx.video_path ("assets/" ++ toString (0 + 1) ++ ".mp4")
      ((0 : ℕ) * segment_duration) (min (((0 : ℕ) + 1) * segment_duration) 6)).start_time
      = 0 :=
  (segmentation_spec true 8 6 cfgEx argsEx _ (by norm_num) rfl).2.2.1
    (cut_video argsEx.video_path ("assets/" ++ toString (0 + 1) ++ ".mp4")
      ((0 : ℕ) * segment_duration) (min (((0 : ℕ) + 1) * segment_duration) 6))
    (by
      rw [mainResult_cut_videos]
      simp [List.getElem?_range (show (0 : ℕ) < nSeg 6 by simp [nSeg_six])])

/-! ### Seeding -/

/-- C9: unless `--seed` is `-1`, `set_seed(args.seed)` is performed exactly once,
before every pipeline invocation, and `torch.seed()` is never called, so runs with
the same seed start from the same RNG state; only for `seed = -1` is the RNG
reseeded via `torch.seed()`, and then `set_seed` is never called. -/
theorem seed_determinism_spec :
    ∀ (d : ℚ) (cad seed : ℤ), (cad = 768 ∨ cad = 384) →
      (seed ≠ -1 →
        (mainTrace d cad seed).count (Event.setSeed seed) = 1 ∧
        Event.torchSeed ∉ mainTrace d cad seed ∧
        (∀ k : ℕ, k < nSeg d →
          before (mainTrace d cad seed) (Event.setSeed seed) (Event.process k))) ∧
      (seed = -1 →
        Event.torchSeed ∈ mainTrace d cad seed ∧
        (∀ s : ℤ, Event.setSeed s ∉ mainTrace d cad seed)) := by
  intro d cad seed hcad
  constructor
  · intro hs
    refine ⟨?_, ?_, ?_⟩
    · rw [mainTrace_valid d cad seed hcad]
      have c1 : List.count (Event.setSeed seed) [Event.probe] = 0 :=
        List.count_eq_zero.mpr (by simp)
      have c2 : List.count (Event.setSeed seed)
          ((List.range (nSeg d)).map Event.cutVideo) = 0 :=
        List.count_eq_zero.mpr (by simp)
      have c3 : List.count (Event.setSeed seed)
          ((List.range (nSeg d)).map Event.cutAudio) = 0 :=
        List.count_eq_zero.mpr (by simp)
      have c4 : List.count (Event.setSeed seed) [Event.loadScheduler] = 0 :=
        List.count_eq_zero.mpr (by simp)
      have c5 : List.count (Event.setSeed seed)
          [Event.loadAudioEncoder, Event.loadVae, Event.loadUnet] = 0 :=
        List.count_eq_zero.mpr (by simp)
      have c6 : List.count (Event.setSeed seed) [seedEvent seed] = 1 := by
        rw [seedEvent, if_pos hs]
        exact List.count_singleton_self _
      have c7 : List.count (Event.setSeed seed)
          ((List.range (nSeg d)).map Event.process) = 0 :=
        List.count_eq_zero.mpr (by simp)
      have c8 : List.count (Event.setSeed seed) [Event.concat] = 0 :=
        List.count_eq_zero.mpr (by simp)
      simp only [List.count_append, c1, c2, c3, c4, c5, c6, c7, c8]
    · rw [mainTrace_valid d cad seed hcad]
      simp [seedEvent, hs]
    · intro k hk
      rw [before, idx_setSeed hcad hs, idx_process hcad hk]
      omega
  · intro hs
    have hse : seedEvent seed = Event.torchSeed := by
      rw [seedEvent, if_neg (not_not_intro hs)]
    constructor
    · rw [mainTrace_valid d cad seed hcad]
      simp [hse]
    · intro s
      rw [mainTrace_valid d cad seed hcad]
      simp [hse]

/-- C9 witness: the deterministic branch at the default seed for duration 6. -/
theorem seed_determinism_spec_witness :
    (mainTrace 6 768 1247).count (Event.setSeed 1247) = 1 :=
  ((seed_determinism_spec 6 768 1247 (Or.inl rfl)).1 (by decide)).1

/-! ### Weight dtype -/

/-- C10: the weight dtype is `float16` exactly when CUDA is available and the
device's major compute capability exceeds 7, otherwise `float32`, and that single
dtype is applied to the VAE and the UNet and passed as `weight_dtype` to every
pipeline invocation. -/
theorem dtype_spec :
    ∀ (cuda : Bool) (cap : ℤ) (d : ℚ) (config : Config) (args : Args) (r : MainResult),
      mainModel cuda cap d config args = Except.ok r →
      (r.dtype = if cuda && decide (7 < cap) then DType.float16 else DType.float32) ∧
      (r.dtype = DType.float16 ↔ (cuda = true ∧ 7 < cap)) ∧
      r.pipeline.vae.torch_dtype = r.dtype ∧
      r.pipeline.unet.dtype = r.dtype ∧
      (∀ c ∈ r.pipeline_calls, c.weight_dtype = r.dtype) := by
  intro cuda cap d config args r hok
  obtain ⟨hcad, w, hw, rfl⟩ := mainModel_ok hok
  refine ⟨rfl, ?_, rfl, rfl, ?_⟩
  · rw [mainResult_dtype]
    cases cuda
    · simp
    · by_cases hc : 7 < cap <;> simp [hc]
  · intro c hc
    rw [mainResult_pipeline_calls] at hc
    rcases List.mem_map.mp hc with ⟨i, _, rfl⟩
    rfl

/-- C10 witness: the dtype facts on a concrete CUDA run with capability 8. -/
theorem dtype_spec_witness :
    (mainResult true 8 6 cfgEx argsEx "checkpoints/whisper/small.pt").dtype =
      DType.float16 ↔ (true = true ∧ (7 : ℤ) < 8) :=
  (dtype_spec true 8 6 cfgEx argsEx _ rfl).2.1

end LatentSync
